import Mathlib

/-!
Verification development for the wheremegaskip service (Go sources in
`app/app.go`, `app/cache.go`, `app/cache_memory.go`, `app/calendar.go`).
Go strings are modelled as Lean `String`/`List Char`, `time.Time` instants
as `Int` (seconds on the Go absolute timeline, day-aligned at 0), and
`float64` coordinates as `ℚ`; the float-valued haversine is abstracted as
an arbitrary rational-valued distance function bounded by `MaxFloat64`.
-/

/-- Set of characters accepted by Go `unicode.IsSpace` (the White_Space
property), used by `strings.TrimSpace` and `strings.Fields`. -/
def isGoSpace (c : Char) : Bool :=
  c = ' ' || c = '\t' || c = '\n' || c = '\x0b' || c = '\x0c' || c = '\r' ||
  c = '\u0085' || c = '\u00A0' || c = '\u1680' ||
  c = '\u2000' || c = '\u2001' || c = '\u2002' || c = '\u2003' || c = '\u2004' ||
  c = '\u2005' || c = '\u2006' || c = '\u2007' || c = '\u2008' || c = '\u2009' ||
  c = '\u200A' || c = '\u2028' || c = '\u2029' || c = '\u202F' || c = '\u205F' ||
  c = '\u3000'

/-- `strings.TrimSpace`: drop leading and trailing white space. -/
def goTrimSpace (s : List Char) : List Char :=
  ((s.dropWhile isGoSpace).reverse.dropWhile isGoSpace).reverse

/-- `strings.TrimPrefix p s`: drop `p` from the front of `s` when it is a
prefix, otherwise return `s` unchanged. -/
def goTrimPre (p s : List Char) : List Char :=
  if p.isPrefixOf s then s.drop p.length else s

/-- `strings.ToUpper` restricted to ASCII letters; the postcode grammar and
all strings the claims touch are ASCII. -/
def goUpperChar (c : Char) : Char :=
  if 'a' ≤ c && c ≤ 'z' then Char.ofNat (c.toNat - 32) else c

/-- `strings.ToUpper` on a character list. -/
def goUpperL (s : List Char) : List Char := s.map goUpperChar

/-- `strings.Split(s, ",")`: split on every comma; never returns `[]`. -/
def splitOnComma : List Char → List (List Char)
  | [] => [[]]
  | c :: rest =>
    match splitOnComma rest with
    | [] => [[c]]
    | g :: gs => if c = ',' then [] :: g :: gs else (c :: g) :: gs

/-- `strings.Join(parts, ",")`. -/
def joinComma (parts : List (List Char)) : List Char :=
  List.intercalate [','] parts

/-- `strings.Join(parts, " ")`. -/
def joinSpace (parts : List (List Char)) : List Char :=
  List.intercalate [' '] parts

/-- Accumulator loop of `strings.Fields`: `acc` is the current word,
reversed. -/
def goFieldsAux : List Char → List Char → List (List Char)
  | [], acc => if acc = [] then [] else [acc.reverse]
  | c :: rest, acc =>
    if isGoSpace c then
      if acc = [] then goFieldsAux rest [] else acc.reverse :: goFieldsAux rest []
    else goFieldsAux rest (c :: acc)

/-- `strings.Fields`: split around runs of white space, no empty words. -/
def goFields (s : List Char) : List (List Char) := goFieldsAux s []

/-- `[A-Z]`. -/
def isUpperAZ (c : Char) : Bool := 'A' ≤ c && c ≤ 'Z'

/-- `\d`. -/
def isDigit09 (c : Char) : Bool := '0' ≤ c && c ≤ '9'

/-- `\s` of Go regexp (RE2 Perl class): `[\t\n\f\r ]`. -/
def isReSpace (c : Char) : Bool :=
  c = '\t' || c = '\n' || c = '\x0c' || c = '\r' || c = ' '

/-- Matches `\d[A-Z]{2}$`, the inward part of the postcode pattern. -/
def pcTail (cs : List Char) : Bool :=
  match cs with
  | [d, x, y] => isDigit09 d && isUpperAZ x && isUpperAZ y
  | _ => false

/-- Matches `\s?\d[A-Z]{2}$`. -/
def pcOptSpace (cs : List Char) : Bool :=
  pcTail cs ||
    (match cs with
     | c :: rest => isReSpace c && pcTail rest
     | [] => false)

/-- Matches `[A-Z]?\s?\d[A-Z]{2}$`. -/
def pcOptLetter (cs : List Char) : Bool :=
  pcOptSpace cs ||
    (match cs with
     | c :: rest => isUpperAZ c && pcOptSpace rest
     | [] => false)

/-- Matches `\d{1,2}[A-Z]?\s?\d[A-Z]{2}$`. -/
def pcDigits (cs : List Char) : Bool :=
  match cs with
  | c :: rest =>
      isDigit09 c &&
        (pcOptLetter rest ||
          (match rest with
           | c2 :: r2 => isDigit09 c2 && pcOptLetter r2
           | [] => false))
  | [] => false

/-- Full anchored match of the UK postcode pattern used in `app.go`:
`^[A-Z]{1,2}\d{1,2}[A-Z]?\s?\d[A-Z]{2}$`. -/
def validPostcodeL (cs : List Char) : Bool :=
  match cs with
  | c :: rest =>
      isUpperAZ c &&
        (pcDigits rest ||
          (match rest with
           | c2 :: r2 => isUpperAZ c2 && pcDigits r2
           | [] => false))
  | [] => false

/-- The postcode pattern on a `String`. -/
def validPostcode (s : String) : Bool := validPostcodeL s.data

/-- `SkipLocation` of `app.go`; `Date` is an instant (seconds), `Latitude`
and `Longitude` are the float fields modelled as rationals. -/
structure SkipLocation where
  Address : String
  Postcode : String
  Date : Int
  DateStr : String
  Latitude : ℚ
  Longitude : ℚ
deriving DecidableEq, Repr, Inhabited

/-- Bullet/whitespace stripping at the top of `parseLocationLine`:
trim, strip a leading bullet glyph, dash or star, trim again. -/
def cleanLine (line : List Char) : List Char :=
  goTrimSpace (goTrimPre ['*'] (goTrimPre ['-'] (goTrimPre ['•'] (goTrimSpace line))))

/-- The comma-split of the cleaned line. -/
def lineParts (line : List Char) : List (List Char) :=
  splitOnComma (cleanLine line)

/-- `strings.TrimSpace(parts[0])`: the address part. -/
def rawAddress (line : List Char) : List Char :=
  goTrimSpace ((lineParts line).headD [])

/-- `strings.TrimSpace(strings.Join(parts[1:], ","))`: the raw postcode
candidate after the first comma. -/
def rawRemainder (line : List Char) : List Char :=
  goTrimSpace (joinComma (lineParts line).tail)

/-- Last-two-token recovery candidate of `parseLocationLine`: defined when
the remainder has at least two whitespace-separated words. -/
def recoveredPostcode (line : List Char) : Option (List Char) :=
  let ws := goFields (rawRemainder line)
  if 2 ≤ ws.length then some (joinSpace (ws.drop (ws.length - 2))) else none

/-- Postcode selection logic of `parseLocationLine`: the raw remainder if
it matches the pattern after uppercasing, else the last-two-token recovery
when that matches, else the raw remainder unchanged. -/
def chosenPostcode (line : List Char) : List Char :=
  let pc := rawRemainder line
  if validPostcodeL (goUpperL pc) then pc
  else
    match recoveredPostcode line with
    | some pot => if validPostcodeL (goUpperL pot) then pot else pc
    | none => pc

/-- `parseLocationLine` of `app.go`: returns the zero `SkipLocation` for an
empty cleaned line or a line without a comma, otherwise address before the
first comma and the (uppercased) selected postcode. -/
def parseLocationLine (line : String) (date : Int) (dateStr : String) : SkipLocation :=
  if cleanLine line.data = [] then ⟨"", "", 0, "", 0, 0⟩
  else if (lineParts line.data).length < 2 then ⟨"", "", 0, "", 0, 0⟩
  else
    { Address := ⟨rawAddress line.data⟩
      Postcode := ⟨goUpperL (chosenPostcode line.data)⟩
      Date := date
      DateStr := dateStr
      Latitude := 0
      Longitude := 0 }

/-- The list-item loop of `parseLocations`: parse each candidate line and
append the result exactly when its address is non-empty. -/
def parseLines (lines : List String) (date : Int) (dateStr : String) : List SkipLocation :=
  (lines.map (fun t => parseLocationLine t date dateStr)).filter
    (fun l => !(l.Address == ""))

/-- An entry of the in-process cache backend (`cache_memory.go`):
a location list plus an absolute expiry instant. -/
structure MemoryCacheEntry where
  locations : List SkipLocation
  expiresAt : Int
deriving DecidableEq, Repr

/-- The map of `MemoryCache`, as an association list. -/
def MemoryCacheSt : Type := List (String × MemoryCacheEntry)

/-- Go map lookup on the association-list model. -/
def mapLookup (key : String) : List (String × MemoryCacheEntry) → Option MemoryCacheEntry
  | [] => none
  | (k, e) :: rest => if k = key then some e else mapLookup key rest

/-- Go map assignment on the association-list model. -/
def mapInsert (key : String) (e : MemoryCacheEntry) :
    List (String × MemoryCacheEntry) → List (String × MemoryCacheEntry)
  | [] => [(key, e)]
  | (k, e2) :: rest =>
      if k = key then (key, e) :: rest else (k, e2) :: mapInsert key e rest

/-- `MemoryCache.Get`: `(value, error, cache after the call)`. A missing
key or an entry whose expiry is strictly before `now` yields `(nil, nil)`;
otherwise the stored locations; the map is never mutated and the error is
always `nil`. -/
def memGet (c : MemoryCacheSt) (now : Int) (key : String) :
    Option (List SkipLocation) × Option String × MemoryCacheSt :=
  match mapLookup key c with
  | none => (none, none, c)
  | some e => if e.expiresAt < now then (none, none, c) else (some e.locations, none, c)

/-- `MemoryCache.Set`: stores the data with expiry `now + ttl` and returns
a `nil` error. -/
def memSet (c : MemoryCacheSt) (now : Int) (key : String)
    (data : List SkipLocation) (ttl : Int) : MemoryCacheSt × Option String :=
  (mapInsert key ⟨data, now + ttl⟩ c, none)

/-- The package-level `Cache` of `app.go`: location list (`none` = Go
`nil`), timestamp of the last successful scrape, and the TTL. -/
structure AppCache where
  data : Option (List SkipLocation)
  timestamp : Int
  ttl : Int
deriving DecidableEq, Repr

/-- The hit test of `getSkipLocations`:
`cache.data != nil && time.Since(cache.timestamp) < cache.ttl`. -/
def cacheHitB (c : AppCache) (now : Int) : Bool :=
  c.data.isSome && decide (now - c.timestamp < c.ttl)

/-- Sequential model of `getSkipLocations` (`app.go`): the read check, the
double check under the write lock (identical in a single-threaded run), and
on a miss the scrape whose outcome is passed in as `scrape`. Returns the
cache state after the call and the `(locations, error)` result. -/
def getSkipLocationsSeq (c : AppCache) (now : Int)
    (scrape : Except String (List SkipLocation)) :
    AppCache × Except String (List SkipLocation) :=
  if cacheHitB c now then (c, .ok (c.data.getD []))
  else
    if cacheHitB c now then (c, .ok (c.data.getD []))
    else
      match scrape with
      | .error e => (c, .error ("scraping failed: " ++ e))
      | .ok locs => ({ data := some locs, timestamp := now, ttl := c.ttl }, .ok locs)

/-- `time.Truncate(24 * time.Hour)` on a day-aligned timeline (seconds):
round down to the enclosing midnight. -/
def truncateDay (t : Int) : Int := t - t % 86400

/-- The upcoming-dates filter of `scrapeCouncilWebsite` (`app.go:159-167`):
keep a location iff its date is strictly after `now` or equal to the start
of the current day. -/
def filterUpcoming (now : Int) (locs : List SkipLocation) : List SkipLocation :=
  locs.filter (fun l => decide (now < l.Date) || decide (l.Date = truncateDay now))

/-- The geocoding loop at the end of `scrapeCouncilWebsite`: `geo` is the
outcome of `geocodePostcode` per postcode; on failure the location is left
untouched (and logged), on success only the coordinates are overwritten. -/
def geocodeAll (geo : String → Option (ℚ × ℚ)) (locs : List SkipLocation) :
    List SkipLocation :=
  locs.map (fun l =>
    match geo l.Postcode with
    | none => l
    | some (la, ln) => { l with Latitude := la, Longitude := ln })

/-- A `SkipLocation` with the coordinate fields erased; two lists with the
same image under this map agree in membership and order up to geocoding. -/
def stripCoords (l : SkipLocation) : SkipLocation :=
  { l with Latitude := 0, Longitude := 0 }

/-- `math.MaxFloat64`, the initial `minDist` of `findNearestSkipForDate`,
as an exact rational: the integer (2^53 - 1) * 2^971, written as a literal
so that it evaluates without unary power recursion. -/
def maxFloat64 : ℚ := 179769313486231570814527423731704356798070567525844996598917476803157260780028538760589558632766878171540458953514382464234321326889464182768467546703537516986049910576551282076245490090389328944075868508455133942304583236903222948165808559332123348274797826204144723168738177180919299881250404026184124858368

/-- Day equality as computed by `findNearestSkipForDate`, which normalizes
both instants to midnight UTC via `time.Date`. -/
def sameDay (a b : Int) : Bool := decide (truncateDay a = truncateDay b)

/-- The loop of `findNearestSkipForDate` with explicit accumulator:
`best` is the current nearest candidate and `minD` the current minimal
distance. `dist` abstracts `haversineDistance userLat userLng lat lng`. -/
def findNearestAux (dist : ℚ → ℚ → ℚ → ℚ → ℚ) (uLat uLng : ℚ) (date : Int) :
    List SkipLocation → Option SkipLocation → ℚ → Option SkipLocation
  | [], best, _ => best
  | s :: rest, best, minD =>
      if sameDay s.Date date then
        if dist uLat uLng s.Latitude s.Longitude < minD then
          findNearestAux dist uLat uLng date rest (some s)
            (dist uLat uLng s.Latitude s.Longitude)
        else findNearestAux dist uLat uLng date rest best minD
      else findNearestAux dist uLat uLng date rest best minD

/-- `findNearestSkipForDate` (`calendar.go`): scan the candidates in order,
keeping the strictly closer one, starting from `math.MaxFloat64`. -/
def findNearestSkipForDate (dist : ℚ → ℚ → ℚ → ℚ → ℚ)
    (skips : List SkipLocation) (date : Int) (uLat uLng : ℚ) :
    Option SkipLocation :=
  findNearestAux dist uLat uLng date skips none maxFloat64

/-- `CalendarEvent` of `calendar.go`. -/
structure CalendarEvent where
  Date : Int
  Title : String
  Description : String
  Location : String
deriving DecidableEq, Repr

/-- One step of `groupSkipsByDate`: append `x` to the group keyed `k`, or
open a new group at the end. -/
def insertGrouped (k : Int) (x : SkipLocation) :
    List (Int × List SkipLocation) → List (Int × List SkipLocation)
  | [] => [(k, [x])]
  | (k2, g) :: rest =>
      if k2 = k then (k2, g ++ [x]) :: rest else (k2, g) :: insertGrouped k x rest

/-- `groupSkipsByDate` (`calendar.go`): group by the date normalized to
midnight UTC; the Go map is modelled as an insertion-ordered association
list (map iteration order is irrelevant: the events are sorted by date
afterwards). -/
def groupSkipsByDate (skips : List SkipLocation) : List (Int × List SkipLocation) :=
  skips.foldl (fun acc s => insertGrouped (truncateDay s.Date) s acc) []

/-- The per-date event constructor of `HandleCalendarPostcode`: the
location string is set iff `findNearestSkipForDate` returned a candidate. -/
def mkPostcodeEvent (dist : ℚ → ℚ → ℚ → ℚ → ℚ) (uLat uLng : ℚ)
    (kg : Int × List SkipLocation) : CalendarEvent :=
  { Date := kg.1
    Title := "Wandsworth Megaskip"
    Description := "Opens 9am, closes at 12 noon or when full.\\nhttps://wheremegaskip.com"
    Location :=
      match findNearestSkipForDate dist kg.2 kg.1 uLat uLng with
      | some n => n.Address ++ ", " ++ n.Postcode ++ ", London, UK"
      | none => "" }

/-- Insertion step of the date sort applied to the event list. -/
def insertEventByDate (e : CalendarEvent) : List CalendarEvent → List CalendarEvent
  | [] => [e]
  | x :: xs => if e.Date < x.Date then e :: x :: xs else x :: insertEventByDate e xs

/-- `sort.Slice(events, events[i].Date.Before(events[j].Date))`: the dates
are pairwise distinct group keys, so any comparison sort yields this. -/
def sortEventsByDate (l : List CalendarEvent) : List CalendarEvent :=
  l.foldr insertEventByDate []

/-- The event-building part of `HandleCalendarPostcode`: group the cached
locations by date, pick the nearest candidate per date, sort by date. -/
def buildPostcodeEvents (dist : ℚ → ℚ → ℚ → ℚ → ℚ) (uLat uLng : ℚ)
    (skips : List SkipLocation) : List CalendarEvent :=
  sortEventsByDate ((groupSkipsByDate skips).map (mkPostcodeEvent dist uLat uLng))

/-- `strings.ReplaceAll` for a single-character pattern. -/
def replaceChar (c : Char) (rep : List Char) : List Char → List Char
  | [] => []
  | x :: xs => (if x = c then rep else [x]) ++ replaceChar c rep xs

/-- `escapeICalText` (`calendar.go`): replace backslash, semicolon, comma
and newline, in that order. -/
def escapeICalTextL (s : List Char) : List Char :=
  replaceChar '\n' ['\\', 'n']
    (replaceChar ',' ['\\', ',']
      (replaceChar ';' ['\\', ';']
        (replaceChar '\\' ['\\', '\\'] s)))

/-- `escapeICalText` on `String`. -/
def escapeICalText (s : String) : String := ⟨escapeICalTextL s.data⟩

/-- The image of one character under `escapeICalText`. -/
def escCharL (c : Char) : List Char :=
  if c = '\\' then ['\\', '\\']
  else if c = ';' then ['\\', ';']
  else if c = ',' then ['\\', ',']
  else if c = '\n' then ['\\', 'n']
  else [c]

/-- Modelled from the spec: the RFC-5545 unescape rules as stated in the
claim — scan left to right, mapping the pairs backslash-backslash,
backslash-semicolon, backslash-comma and backslash-n to backslash,
semicolon, comma and newline; any other character is copied. -/
def unescapeICalL : List Char → List Char
  | [] => []
  | x :: rest =>
    if x = '\\' then
      match rest with
      | [] => ['\\']
      | c :: rest2 =>
        if c = '\\' then '\\' :: unescapeICalL rest2
        else if c = ';' then ';' :: unescapeICalL rest2
        else if c = ',' then ',' :: unescapeICalL rest2
        else if c = 'n' then '\n' :: unescapeICalL rest2
        else '\\' :: unescapeICalL (c :: rest2)
    else x :: unescapeICalL rest
termination_by s => s.length
decreasing_by all_goals simp [List.length_cons] <;> omega

/-- The unescape rules on `String`. -/
def unescapeICal (s : String) : String := ⟨unescapeICalL s.data⟩

/-- Program counter of one request thread running `getSkipLocations`:
`start` before `RLock`; `rlocked` holding the read lock before the hit
test; `missed` after `RUnlock` on a miss; `wlocked` holding the write lock
before the double check; `scraping` inside `scrapeCouncilWebsite`;
`wroteData` after the `cache.data` assignment but before the
`cache.timestamp` assignment; `finished r` returned with locations `r`. -/
inductive ThreadPC where
  | start
  | rlocked
  | missed
  | wlocked
  | scraping
  | wroteData
  | finished (r : List SkipLocation)
deriving DecidableEq, Repr

/-- A thread holds the exclusive (write) side of the `RWMutex` exactly in
these states. -/
def holdsWrite (t : ThreadPC) : Prop :=
  t = .wlocked ∨ t = .scraping ∨ t = .wroteData

instance (t : ThreadPC) : Decidable (holdsWrite t) := by
  unfold holdsWrite; infer_instance

/-- Global state of `n` concurrent `getSkipLocations` calls: the thread
program counters and the shared package-level cache. `data` is
`cache.data`; `fresh` abstracts `time.Since(cache.timestamp) < cache.ttl`
for the calls in flight (constant between writes: the calls are
concurrent or immediately subsequent, so the TTL does not lapse mid-run);
`scrapes` counts started `scrapeCouncilWebsite` calls. -/
structure SysState (n : Nat) where
  pc : Fin n → ThreadPC
  data : Option (List SkipLocation)
  fresh : Bool
  scrapes : Nat

/-- Interleaving semantics of `getSkipLocations` under `sync.RWMutex`
semantics, for a run in which the scrape succeeds with locations `v`:
`RLock` needs no exclusive holder; `Lock` needs no exclusive holder and no
reader; the hit test reads `data`/`fresh` under the lock held; the two
assignments of the refresh are separate steps. -/
inductive SysStep (v : List SkipLocation) {n : Nat} : SysState n → SysState n → Prop where
  | rlock (s : SysState n) (i : Fin n)
      (hpc : s.pc i = .start)
      (hw : ∀ j, ¬ holdsWrite (s.pc j)) :
      SysStep v s { s with pc := Function.update s.pc i .rlocked }
  | rhit (s : SysState n) (i : Fin n) (w : List SkipLocation)
      (hpc : s.pc i = .rlocked) (hd : s.data = some w) (hf : s.fresh = true) :
      SysStep v s { s with pc := Function.update s.pc i (.finished w) }
  | rmiss (s : SysState n) (i : Fin n)
      (hpc : s.pc i = .rlocked) (hm : s.data = none ∨ s.fresh = false) :
      SysStep v s { s with pc := Function.update s.pc i .missed }
  | wlock (s : SysState n) (i : Fin n)
      (hpc : s.pc i = .missed)
      (hw : ∀ j, ¬ holdsWrite (s.pc j))
      (hr : ∀ j, s.pc j ≠ .rlocked) :
      SysStep v s { s with pc := Function.update s.pc i .wlocked }
  | whit (s : SysState n) (i : Fin n) (w : List SkipLocation)
      (hpc : s.pc i = .wlocked) (hd : s.data = some w) (hf : s.fresh = true) :
      SysStep v s { s with pc := Function.update s.pc i (.finished w) }
  | wmiss (s : SysState n) (i : Fin n)
      (hpc : s.pc i = .wlocked) (hm : s.data = none ∨ s.fresh = false) :
      SysStep v s { s with pc := Function.update s.pc i .scraping,
                           scrapes := s.scrapes + 1 }
  | wdata (s : SysState n) (i : Fin n)
      (hpc : s.pc i = .scraping) :
      SysStep v s { s with pc := Function.update s.pc i .wroteData,
                           data := some v }
  | wts (s : SysState n) (i : Fin n)
      (hpc : s.pc i = .wroteData) :
      SysStep v s { s with pc := Function.update s.pc i (.finished v),
                           fresh := true }

/-- All threads about to call `getSkipLocations` on a cold or expired
cache (`cache.data == nil`). -/
def initMiss (n : Nat) : SysState n :=
  { pc := fun _ => .start, data := none, fresh := false, scrapes := 0 }

/-- All threads about to call `getSkipLocations` on a warm cache holding
`w` within its TTL. -/
def initFresh (n : Nat) (w : List SkipLocation) : SysState n :=
  { pc := fun _ => .start, data := some w, fresh := true, scrapes := 0 }

/-- Reachability under the interleaving semantics. -/
def Reaches (v : List SkipLocation) {n : Nat} (s t : SysState n) : Prop :=
  Relation.ReflTransGen (SysStep v) s t

/-- Inductive invariant of a run from `initMiss`: write-lock mutual
exclusion, reader/writer exclusion, and the phase disjunction — no scrape
yet (cold cache), exactly one thread mid-refresh, or refresh complete. -/
def MissInv (v : List SkipLocation) {n : Nat} (s : SysState n) : Prop :=
  (∀ i j, holdsWrite (s.pc i) → holdsWrite (s.pc j) → i = j) ∧
  (∀ i j, s.pc i = .rlocked → ¬ holdsWrite (s.pc j)) ∧
  ((s.scrapes = 0 ∧ s.fresh = false ∧ s.data = none ∧
      ∀ i, s.pc i = .start ∨ s.pc i = .rlocked ∨ s.pc i = .missed ∨ s.pc i = .wlocked) ∨
   (s.scrapes = 1 ∧ s.fresh = false ∧
      ∃ k, ((s.pc k = .scraping ∧ s.data = none) ∨
            (s.pc k = .wroteData ∧ s.data = some v)) ∧
        ∀ j, j ≠ k → s.pc j = .start ∨ s.pc j = .missed) ∨
   (s.scrapes = 1 ∧ s.fresh = true ∧ s.data = some v ∧
      ∀ i, s.pc i = .start ∨ s.pc i = .rlocked ∨ s.pc i = .missed ∨
           s.pc i = .wlocked ∨ s.pc i = .finished v))

/-- Inductive invariant of a run from `initFresh`: every read hits, nobody
ever scrapes. -/
def FreshInv (w : List SkipLocation) {n : Nat} (s : SysState n) : Prop :=
  s.scrapes = 0 ∧ s.data = some w ∧ s.fresh = true ∧
  ∀ i, s.pc i = .start ∨ s.pc i = .rlocked ∨ s.pc i = .missed ∨
       s.pc i = .wlocked ∨ s.pc i = .finished w

/-- Well-formedness of the association list built by `groupSkipsByDate`:
every group is non-empty, its members carry the group's normalized date,
and come from the grouped list. -/
def GroupsOK (skips : List SkipLocation) (gs : List (Int × List SkipLocation)) : Prop :=
  ∀ p ∈ gs, p.2 ≠ [] ∧ ∀ s ∈ p.2, truncateDay s.Date = p.1 ∧ s ∈ skips

/-- C10 helper: a claim-independent record of what `memGet` returns so the
statements below stay readable. -/
def memGetValue (c : MemoryCacheSt) (now : Int) (key : String) :
    Option (List SkipLocation) :=
  (memGet c now key).1

theorem truncateDay_le (t : Int) : truncateDay t ≤ t := by
  have h0 : 0 ≤ t % 86400 := Int.emod_nonneg t (by norm_num)
  unfold truncateDay
  omega

theorem truncateDay_idem (t : Int) : truncateDay (truncateDay t) = truncateDay t := by
  unfold truncateDay
  have h : (t - t % 86400) % 86400 = 0 := by
    rw [Int.sub_emod, Int.emod_emod_of_dvd t dvd_rfl]
    simp
  omega

/-- C10: for every state, key, value list and TTL, the in-process cache
backend `MemoryCache` returns a `nil` error from both `Get` and `Set`; a
miss is reported as `(nil, nil)`, never as an error. -/
theorem memoryCache_never_errors :
    (∀ c now key, (memGet c now key).2.1 = none) ∧
    (∀ c now key data ttl, (memSet c now key data ttl).2 = none) := by
  constructor
  · intro c now key
    unfold memGet
    cases mapLookup key c with
    | none => rfl
    | some e =>
      dsimp only
      split <;> rfl
  · intro c now key data ttl
    rfl

theorem memGet_unfold (c : MemoryCacheSt) (now : Int) (key : String) :
    (memGet c now key).1 =
      match mapLookup key c with
      | none => none
      | some e => if e.expiresAt < now then none else some e.locations := by
  unfold memGet
  cases mapLookup key c with
  | none => rfl
  | some e =>
    dsimp only
    split <;> rfl

/-- C7 counterexample: with an entry stored under key `"skips"` expiring
at instant 100, a `Get` at instant 100 (i.e. `now` equal to the expiry,
so not `now < expiry`) still returns the stored value — the claimed
hit condition `now < expiry` does not hold for the code, which misses
only when `now` is strictly past the expiry. -/
theorem memGet_boundary_hit :
    (memGet [("skips", ⟨[⟨"A", "SW11 1AA", 0, "d", 0, 0⟩], 100⟩)] 100 "skips").1 =
      some [⟨"A", "SW11 1AA", 0, "d", 0, 0⟩] ∧
    ¬ ((100 : Int) < 100) := by
  constructor
  · rfl
  · decide

/-- C7 (amended): `MemoryCache.Get` is a hit iff the key is present and
`now ≤ expiry` (Go `time.Now().After(expiresAt)` is strict, so the entry
at exactly its expiry still hits); the reported value is the stored one,
and the map is not mutated (no eager removal). -/
theorem memGet_hit_iff :
    ∀ c now key,
      ((memGet c now key).1 ≠ none ↔
        ∃ e, mapLookup key c = some e ∧ now ≤ e.expiresAt) ∧
      (∀ v, (memGet c now key).1 = some v →
        ∃ e, mapLookup key c = some e ∧ now ≤ e.expiresAt ∧ v = e.locations) ∧
      (memGet c now key).2.2 = c := by
  intro c now key
  have hu := memGet_unfold c now key
  refine ⟨?_, ?_, ?_⟩
  · rw [hu]
    cases h : mapLookup key c with
    | none => simp
    | some e =>
      by_cases hlt : e.expiresAt < now
      · simp only [hlt, if_true]
        constructor
        · intro hc; exact absurd rfl hc
        · rintro ⟨e2, he2, hle⟩
          cases he2
          exfalso
          omega
      · simp only [hlt, if_false]
        constructor
        · intro _
          exact ⟨e, rfl, by omega⟩
        · intro _
          simp
  · intro v hv
    rw [hu] at hv
    cases h : mapLookup key c with
    | none => rw [h] at hv; cases hv
    | some e =>
      rw [h] at hv
      by_cases hlt : e.expiresAt < now
      · simp only [hlt, if_true] at hv
        cases hv
      · simp only [hlt, if_false] at hv
        cases hv
        exact ⟨e, rfl, by omega, rfl⟩
  · unfold memGet
    cases mapLookup key c with
    | none => rfl
    | some e =>
      dsimp only
      split <;> rfl

/-- C4: when the cache misses and the scrape fails, `getSkipLocations`
returns the wrapped error and leaves both `cache.data` and
`cache.timestamp` unchanged: nothing is written on the error path. -/
theorem getSkipLocations_error_path :
    ∀ c now e, cacheHitB c now = false →
      getSkipLocationsSeq c now (.error e) = (c, .error ("scraping failed: " ++ e)) := by
  intro c now e h
  unfold getSkipLocationsSeq
  rw [h]
  simp

theorem getSkipLocations_error_path_witness :
    cacheHitB ⟨none, 0, 3600⟩ 0 = false ∧
    getSkipLocationsSeq ⟨none, 0, 3600⟩ 0 (.error "bad status code: 500") =
      (⟨none, 0, 3600⟩, .error ("scraping failed: " ++ "bad status code: 500")) :=
  ⟨rfl, getSkipLocations_error_path ⟨none, 0, 3600⟩ 0 "bad status code: 500" rfl⟩

/-- C5: the upcoming-dates filter of the scraper keeps exactly the parsed
locations whose date is strictly after `now` or equal to the start of the
current day; every location dated before today (before the truncated
instant) is dropped, and a location dated today (equal to it) is kept. -/
theorem scrape_filter_upcoming :
    ∀ (now : Int) locs l,
      (l ∈ filterUpcoming now locs ↔
        l ∈ locs ∧ (now < l.Date ∨ l.Date = truncateDay now)) ∧
      (l.Date < truncateDay now → l ∉ filterUpcoming now locs) ∧
      (l ∈ locs → l.Date = truncateDay now → l ∈ filterUpcoming now locs) := by
  intro now locs l
  have hmem : l ∈ filterUpcoming now locs ↔
      l ∈ locs ∧ (now < l.Date ∨ l.Date = truncateDay now) := by
    unfold filterUpcoming
    rw [List.mem_filter]
    simp
  refine ⟨hmem, ?_, ?_⟩
  · intro hlt hin
    have h2 := (hmem.mp hin).2
    have hle := truncateDay_le now
    rcases h2 with h2 | h2 <;> omega
  · intro hin heq
    exact hmem.mpr ⟨hin, Or.inr heq⟩

theorem scrape_filter_upcoming_witness :
    (⟨"A", "SW11 1AA", 86400, "d", 0, 0⟩ : SkipLocation) ∈
      [(⟨"A", "SW11 1AA", 86400, "d", 0, 0⟩ : SkipLocation)] ∧
    (86400 : Int) = truncateDay 90000 ∧
    (⟨"A", "SW11 1AA", 86400, "d", 0, 0⟩ : SkipLocation) ∈
      filterUpcoming 90000 [⟨"A", "SW11 1AA", 86400, "d", 0, 0⟩] :=
  ⟨by simp, by decide,
   (scrape_filter_upcoming 90000
      [⟨"A", "SW11 1AA", 86400, "d", 0, 0⟩]
      ⟨"A", "SW11 1AA", 86400, "d", 0, 0⟩).2.2 (by simp) (by decide)⟩

/-- C6: geocoding outcomes never change the membership or order of the
scraper result: the geocoded list has the same length and the same image
once coordinates are erased (for any two outcome functions), and a
location whose geocode fails is returned completely unchanged — in
particular it keeps the zero coordinates the parser gave it. -/
theorem geocode_failure_nonfatal :
    ∀ (geo geo2 : String → Option (ℚ × ℚ)) locs,
      (geocodeAll geo locs).length = locs.length ∧
      (geocodeAll geo locs).map stripCoords = locs.map stripCoords ∧
      (geocodeAll geo locs).map stripCoords = (geocodeAll geo2 locs).map stripCoords ∧
      (∀ (i : Nat) (l : SkipLocation), locs[i]? = some l → geo l.Postcode = none →
        (geocodeAll geo locs)[i]? = some l) := by
  intro geo geo2 locs
  have hstrip : ∀ (g : String → Option (ℚ × ℚ)),
      (geocodeAll g locs).map stripCoords = locs.map stripCoords := by
    intro g
    unfold geocodeAll
    rw [List.map_map]
    apply List.map_congr_left
    intro l _
    show stripCoords (match g l.Postcode with
      | none => l
      | some (la, ln) => { l with Latitude := la, Longitude := ln }) = stripCoords l
    cases g l.Postcode with
    | none => rfl
    | some p => cases p with | mk la ln => rfl
  refine ⟨?_, hstrip geo, (hstrip geo).trans (hstrip geo2).symm, ?_⟩
  · unfold geocodeAll
    exact List.length_map _ _
  · intro i l hget hgeo
    unfold geocodeAll
    rw [List.getElem?_map, hget]
    show some (match geo l.Postcode with
      | none => l
      | some (la, ln) => { l with Latitude := la, Longitude := ln }) = some l
    rw [hgeo]

theorem geocode_failure_nonfatal_witness :
    ([⟨"A", "SW11 1AA", 0, "d", 0, 0⟩] : List SkipLocation)[0]? =
      some ⟨"A", "SW11 1AA", 0, "d", 0, 0⟩ ∧
    (geocodeAll (fun _ => none) [⟨"A", "SW11 1AA", 0, "d", 0, 0⟩])[0]? =
      some ⟨"A", "SW11 1AA", 0, "d", 0, 0⟩ :=
  ⟨rfl,
   (geocode_failure_nonfatal (fun _ => none) (fun _ => none)
      [⟨"A", "SW11 1AA", 0, "d", 0, 0⟩]).2.2.2 0
      ⟨"A", "SW11 1AA", 0, "d", 0, 0⟩ rfl rfl⟩

/-- C1 counterexample: the candidate line `"Pountney Road, NOTAPC"` has a
postcode part that fails the postal-code grammar and has fewer than two
whitespace-separated tokens, yet `parseLocationLine` keeps it: the line is
appended (address non-empty) with the invalid postcode `"NOTAPC"`, not
discarded. -/
theorem validPostcode_mk (l : List Char) : validPostcode ⟨l⟩ = validPostcodeL l := rfl

theorem parseLines_keeps_invalid_postcode :
    parseLines ["Pountney Road, NOTAPC"] 5 "Sat" =
      [⟨"Pountney Road", "NOTAPC", 5, "Sat", 0, 0⟩] ∧
    validPostcode "NOTAPC" = false := by
  constructor <;> decide

/-- C1 (amended): a parsed location is appended exactly when its address
is non-empty; when the postcode part (or its last-two-token recovery)
matches the grammar the stored postcode matches the grammar, but a line
whose postcode fails both checks is still kept, carrying the uppercased
raw remainder as its postcode, rather than discarded. -/
theorem parseLocations_postcode_policy :
    (∀ lines d ds loc,
      loc ∈ parseLines lines d ds ↔
        ∃ line ∈ lines, parseLocationLine line d ds = loc ∧ loc.Address ≠ "") ∧
    (∀ line d ds, (parseLocationLine line d ds).Address ≠ "" →
      validPostcode (parseLocationLine line d ds).Postcode =
        (validPostcodeL (goUpperL (rawRemainder line.data)) ||
          (recoveredPostcode line.data).elim false
            (fun pot => validPostcodeL (goUpperL pot))) ∧
      (validPostcodeL (goUpperL (rawRemainder line.data)) = false →
        recoveredPostcode line.data = none →
        (parseLocationLine line d ds).Postcode = ⟨goUpperL (rawRemainder line.data)⟩)) := by
  constructor
  · intro lines d ds loc
    unfold parseLines
    rw [List.mem_filter, List.mem_map]
    constructor
    · rintro ⟨⟨line, hline, heq⟩, hb⟩
      refine ⟨line, hline, heq, ?_⟩
      intro hA
      rw [hA] at hb
      simp at hb
    · rintro ⟨line, hline, hpl, hA⟩
      refine ⟨⟨line, hline, hpl⟩, ?_⟩
      simp [hA]
  · intro line d ds hA
    have hc1 : ¬ cleanLine line.data = [] := by
      intro h
      apply hA
      simp [parseLocationLine, h]
    have hc2 : ¬ (lineParts line.data).length < 2 := by
      intro h
      apply hA
      simp [parseLocationLine, hc1, h]
    have hrec : parseLocationLine line d ds =
        { Address := ⟨rawAddress line.data⟩
          Postcode := ⟨goUpperL (chosenPostcode line.data)⟩
          Date := d
          DateStr := ds
          Latitude := 0
          Longitude := 0 } := by
      rw [parseLocationLine, if_neg hc1, if_neg hc2]
    rw [hrec]
    constructor
    · change validPostcode ⟨goUpperL (chosenPostcode line.data)⟩ = _
      rw [validPostcode_mk]
      simp only [chosenPostcode]
      split
      · rename_i h1
        rw [h1, Bool.true_or]
      · rename_i h1
        have h1f : validPostcodeL (goUpperL (rawRemainder line.data)) = false := by
          revert h1
          cases validPostcodeL (goUpperL (rawRemainder line.data)) <;> simp
        split
        · rename_i pot h2
          rw [h2, h1f, Bool.false_or]
          split
          · rename_i h3
            simp [h3]
          · rename_i h3
            have h3f : validPostcodeL (goUpperL pot) = false := by
              revert h3
              cases validPostcodeL (goUpperL pot) <;> simp
            simp [h1f, h3f]
        · rename_i h2
          rw [h2, h1f, Bool.false_or]
          rfl
    · intro h1 h2
      change String.mk (goUpperL (chosenPostcode line.data)) = _
      simp only [chosenPostcode, h2]
      rw [if_neg (by simp [h1])]

theorem parseLocations_postcode_policy_witness :
    (parseLocationLine "Pountney Road, SW11 5TU" 0 "d").Address ≠ "" ∧
    validPostcode (parseLocationLine "Pountney Road, SW11 5TU" 0 "d").Postcode =
      (validPostcodeL (goUpperL (rawRemainder "Pountney Road, SW11 5TU".data)) ||
        (recoveredPostcode "Pountney Road, SW11 5TU".data).elim false
          (fun pot => validPostcodeL (goUpperL pot))) :=
  ⟨by decide,
   (parseLocations_postcode_policy.2 "Pountney Road, SW11 5TU" 0 "d" (by decide)).1⟩

theorem replaceChar_append (c : Char) (rep : List Char) :
    ∀ a b, replaceChar c rep (a ++ b) = replaceChar c rep a ++ replaceChar c rep b := by
  intro a b
  induction a with
  | nil => rfl
  | cons x xs ih =>
    show (if x = c then rep else [x]) ++ replaceChar c rep (xs ++ b) =
        ((if x = c then rep else [x]) ++ replaceChar c rep xs) ++ replaceChar c rep b
    rw [ih, List.append_assoc]

theorem escape_cons (c : Char) (s : List Char) :
    escapeICalTextL (c :: s) = escCharL c ++ escapeICalTextL s := by
  by_cases h1 : c = '\\'
  · subst h1
    simp only [escapeICalTextL]
    rw [show replaceChar '\\' ['\\', '\\'] ('\\' :: s) =
          ['\\', '\\'] ++ replaceChar '\\' ['\\', '\\'] s from rfl,
        replaceChar_append, replaceChar_append, replaceChar_append]
    congr 1
  · by_cases h2 : c = ';'
    · subst h2
      simp only [escapeICalTextL]
      rw [show replaceChar '\\' ['\\', '\\'] (';' :: s) =
            [';'] ++ replaceChar '\\' ['\\', '\\'] s from rfl,
          replaceChar_append, replaceChar_append, replaceChar_append]
      congr 1
    · by_cases h3 : c = ','
      · subst h3
        simp only [escapeICalTextL]
        rw [show replaceChar '\\' ['\\', '\\'] (',' :: s) =
              [','] ++ replaceChar '\\' ['\\', '\\'] s from rfl,
            replaceChar_append, replaceChar_append, replaceChar_append]
        congr 1
      · by_cases h4 : c = '\n'
        · subst h4
          simp only [escapeICalTextL]
          rw [show replaceChar '\\' ['\\', '\\'] ('\n' :: s) =
                ['\n'] ++ replaceChar '\\' ['\\', '\\'] s from rfl,
              replaceChar_append, replaceChar_append, replaceChar_append]
          congr 1
        · simp only [escapeICalTextL]
          have e1 : replaceChar '\\' ['\\', '\\'] (c :: s) =
              [c] ++ replaceChar '\\' ['\\', '\\'] s := by
            simp [replaceChar, h1]
          rw [e1, replaceChar_append, replaceChar_append, replaceChar_append]
          congr 1
          simp [replaceChar, escCharL, h1, h2, h3, h4]

theorem escape_unescape_list : ∀ s, unescapeICalL (escapeICalTextL s) = s := by
  intro s
  induction s with
  | nil =>
    show unescapeICalL [] = []
    simp [unescapeICalL]
  | cons c s ih =>
    rw [escape_cons]
    by_cases h1 : c = '\\'
    · subst h1
      show unescapeICalL ('\\' :: '\\' :: escapeICalTextL s) = _
      simp [unescapeICalL, ih]
    · by_cases h2 : c = ';'
      · subst h2
        show unescapeICalL ('\\' :: ';' :: escapeICalTextL s) = _
        simp [unescapeICalL, ih]
      · by_cases h3 : c = ','
        · subst h3
          show unescapeICalL ('\\' :: ',' :: escapeICalTextL s) = _
          simp [unescapeICalL, ih]
        · by_cases h4 : c = '\n'
          · subst h4
            show unescapeICalL ('\\' :: 'n' :: escapeICalTextL s) = _
            simp [unescapeICalL, ih]
          · have he : escCharL c = [c] := by
              simp [escCharL, h1, h2, h3, h4]
            rw [he, List.singleton_append, unescapeICalL.eq_def]
            simp only []
            rw [if_neg h1, ih]

/-- C9: applying the RFC-5545 unescape rules to `escapeICalText s` recovers
`s` exactly, for every input string. -/
theorem escapeICalText_roundtrip :
    ∀ s : String, unescapeICal (escapeICalText s) = s := by
  intro s
  cases s with
  | mk data =>
    show String.mk (unescapeICalL (escapeICalTextL data)) = String.mk data
    rw [escape_unescape_list]

theorem findNearestAux_none_iff (dist : ℚ → ℚ → ℚ → ℚ → ℚ) (uLat uLng : ℚ) (date : Int) :
    ∀ (l : List SkipLocation) (best : Option SkipLocation) (minD : ℚ),
      (findNearestAux dist uLat uLng date l best minD = none ↔
        best = none ∧ ∀ s ∈ l, ¬(sameDay s.Date date = true ∧
          dist uLat uLng s.Latitude s.Longitude < minD)) := by
  intro l
  induction l with
  | nil =>
    intro best minD
    simp [findNearestAux]
  | cons s rest ih =>
    intro best minD
    simp only [findNearestAux]
    by_cases hd : sameDay s.Date date = true
    · rw [if_pos hd]
      by_cases hlt : dist uLat uLng s.Latitude s.Longitude < minD
      · rw [if_pos hlt, ih]
        constructor
        · rintro ⟨h, -⟩
          cases h
        · rintro ⟨-, hall⟩
          exact absurd ⟨hd, hlt⟩ (hall s (List.mem_cons_self s rest))
      · rw [if_neg hlt, ih]
        constructor
        · rintro ⟨hb, hall⟩
          refine ⟨hb, ?_⟩
          intro t ht
          rcases List.mem_cons.mp ht with h | h
          · subst h
            rintro ⟨-, habs⟩
            exact hlt habs
          · exact hall t h
        · rintro ⟨hb, hall⟩
          exact ⟨hb, fun t ht => hall t (List.mem_cons_of_mem s ht)⟩
    · rw [if_neg hd, ih]
      constructor
      · rintro ⟨hb, hall⟩
        refine ⟨hb, ?_⟩
        intro t ht
        rcases List.mem_cons.mp ht with h | h
        · subst h
          rintro ⟨habs, -⟩
          exact hd habs
        · exact hall t h
      · rintro ⟨hb, hall⟩
        exact ⟨hb, fun t ht => hall t (List.mem_cons_of_mem s ht)⟩

theorem findNearestAux_some (dist : ℚ → ℚ → ℚ → ℚ → ℚ) (uLat uLng : ℚ) (date : Int) :
    ∀ (l : List SkipLocation) (best : Option SkipLocation) (minD : ℚ) (n : SkipLocation),
      findNearestAux dist uLat uLng date l best minD = some n →
      (best = some n ∧ ∀ s ∈ l, sameDay s.Date date = true →
          ¬ dist uLat uLng s.Latitude s.Longitude < minD) ∨
      (∃ l1 l2, l = l1 ++ n :: l2 ∧ sameDay n.Date date = true ∧
        dist uLat uLng n.Latitude n.Longitude < minD ∧
        (∀ s ∈ l1, sameDay s.Date date = true →
          dist uLat uLng n.Latitude n.Longitude < dist uLat uLng s.Latitude s.Longitude) ∧
        (∀ s ∈ l2, sameDay s.Date date = true →
          dist uLat uLng n.Latitude n.Longitude ≤ dist uLat uLng s.Latitude s.Longitude)) := by
  intro l
  induction l with
  | nil =>
    intro best minD n h
    exact Or.inl ⟨h, by intro s hs; cases hs⟩
  | cons s rest ih =>
    intro best minD n h
    simp only [findNearestAux] at h
    by_cases hd : sameDay s.Date date = true
    · rw [if_pos hd] at h
      by_cases hlt : dist uLat uLng s.Latitude s.Longitude < minD
      · rw [if_pos hlt] at h
        rcases ih (some s) (dist uLat uLng s.Latitude s.Longitude) n h with
          ⟨hb, hall⟩ | ⟨r1, r2, heq, hm, hdn, hr1, hr2⟩
        · cases hb
          refine Or.inr ⟨[], rest, rfl, hd, hlt, ?_, ?_⟩
          · intro t ht
            cases ht
          · intro t ht hsd
            exact not_lt.mp (hall t ht hsd)
        · refine Or.inr ⟨s :: r1, r2, by rw [heq, List.cons_append], hm, lt_trans hdn hlt, ?_, hr2⟩
          intro t ht hsd
          rcases List.mem_cons.mp ht with h2 | h2
          · subst h2
            exact hdn
          · exact hr1 t h2 hsd
      · rw [if_neg hlt] at h
        rcases ih best minD n h with
          ⟨hb, hall⟩ | ⟨r1, r2, heq, hm, hdn, hr1, hr2⟩
        · refine Or.inl ⟨hb, ?_⟩
          intro t ht hsd
          rcases List.mem_cons.mp ht with h2 | h2
          · subst h2
            exact hlt
          · exact hall t h2 hsd
        · refine Or.inr ⟨s :: r1, r2, by rw [heq, List.cons_append], hm, hdn, ?_, hr2⟩
          intro t ht hsd
          rcases List.mem_cons.mp ht with h2 | h2
          · subst h2
            exact lt_of_lt_of_le hdn (not_lt.mp hlt)
          · exact hr1 t h2 hsd
    · rw [if_neg hd] at h
      rcases ih best minD n h with
        ⟨hb, hall⟩ | ⟨r1, r2, heq, hm, hdn, hr1, hr2⟩
      · refine Or.inl ⟨hb, ?_⟩
        intro t ht hsd
        rcases List.mem_cons.mp ht with h2 | h2
        · subst h2
          exact absurd hsd hd
        · exact hall t h2 hsd
      · refine Or.inr ⟨s :: r1, r2, by rw [heq, List.cons_append], hm, hdn, ?_, hr2⟩
        intro t ht hsd
        rcases List.mem_cons.mp ht with h2 | h2
        · subst h2
          exact absurd hsd hd
        · exact hr1 t h2 hsd

/-- C8: `findNearestSkipForDate` returns `nil` exactly when no candidate
shares the target calendar date; otherwise the returned candidate shares
the date, attains the minimal distance among all same-date candidates
(for the distance function standing in for the float haversine, provided
its values stay below `math.MaxFloat64`), and is the first candidate in
input order attaining that minimum: every earlier same-date candidate is
strictly farther. -/
theorem findNearestSkipForDate_spec :
    ∀ (dist : ℚ → ℚ → ℚ → ℚ → ℚ) (skips : List SkipLocation) (date : Int) (uLat uLng : ℚ),
      (∀ s ∈ skips, dist uLat uLng s.Latitude s.Longitude < maxFloat64) →
      (findNearestSkipForDate dist skips date uLat uLng = none ↔
        ∀ s ∈ skips, sameDay s.Date date = false) ∧
      (∀ n, findNearestSkipForDate dist skips date uLat uLng = some n →
        sameDay n.Date date = true ∧
        (∀ s ∈ skips, sameDay s.Date date = true →
          dist uLat uLng n.Latitude n.Longitude ≤ dist uLat uLng s.Latitude s.Longitude) ∧
        ∃ l1 l2, skips = l1 ++ n :: l2 ∧
          ∀ s ∈ l1, sameDay s.Date date = true →
            dist uLat uLng n.Latitude n.Longitude < dist uLat uLng s.Latitude s.Longitude) := by
  intro dist skips date uLat uLng hb
  constructor
  · rw [findNearestSkipForDate, findNearestAux_none_iff]
    constructor
    · rintro ⟨-, hall⟩ s hs
      cases hsd : sameDay s.Date date with
      | false => rfl
      | true => exact absurd ⟨hsd, hb s hs⟩ (hall s hs)
    · intro hall
      refine ⟨rfl, ?_⟩
      rintro s hs ⟨hmatch, -⟩
      rw [hall s hs] at hmatch
      cases hmatch
  · intro n hn
    rcases findNearestAux_some dist uLat uLng date skips none maxFloat64 n hn with
      ⟨hb2, -⟩ | ⟨l1, l2, heq, hm, _, hl1, hl2⟩
    · cases hb2
    · refine ⟨hm, ?_, l1, l2, heq, hl1⟩
      intro s hs hsd
      rw [heq] at hs
      rcases List.mem_append.mp hs with h | h
      · exact le_of_lt (hl1 s h hsd)
      · rcases List.mem_cons.mp h with h | h
        · subst h
          exact le_refl _
        · exact hl2 s h hsd

theorem findNearestSkipForDate_spec_witness :
    (∀ s ∈ [(⟨"Far", "SW11 1AA", 0, "d", 5, 0⟩ : SkipLocation),
            ⟨"Near", "SW11 1BB", 0, "d", 3, 0⟩],
      (fun _ _ la _ => la : ℚ → ℚ → ℚ → ℚ → ℚ) 0 0 s.Latitude s.Longitude < maxFloat64) ∧
    (findNearestSkipForDate (fun _ _ la _ => la)
        [⟨"Far", "SW11 1AA", 0, "d", 5, 0⟩, ⟨"Near", "SW11 1BB", 0, "d", 3, 0⟩] 0 0 0 = none ↔
      ∀ s ∈ [(⟨"Far", "SW11 1AA", 0, "d", 5, 0⟩ : SkipLocation),
             ⟨"Near", "SW11 1BB", 0, "d", 3, 0⟩], sameDay s.Date 0 = false) :=
  ⟨by decide,
   (findNearestSkipForDate_spec (fun _ _ la _ => la)
      [⟨"Far", "SW11 1AA", 0, "d", 5, 0⟩, ⟨"Near", "SW11 1BB", 0, "d", 3, 0⟩]
      0 0 0 (by decide)).1⟩

theorem groupsOK_insertGrouped (skips : List SkipLocation) (x : SkipLocation)
    (hx : x ∈ skips) :
    ∀ acc, GroupsOK skips acc →
      GroupsOK skips (insertGrouped (truncateDay x.Date) x acc) := by
  intro acc
  induction acc with
  | nil =>
    intro _ p hp
    rcases List.mem_singleton.mp hp with rfl
    refine ⟨by simp, ?_⟩
    intro s hs
    rcases List.mem_singleton.mp hs with rfl
    exact ⟨rfl, hx⟩
  | cons hd2 rest ih =>
    intro hOK
    cases hd2 with
    | mk k2 g =>
      simp only [insertGrouped]
      by_cases hk : k2 = truncateDay x.Date
      · rw [if_pos hk]
        intro p hp
        rcases List.mem_cons.mp hp with rfl | hp2
        · refine ⟨by simp, ?_⟩
          intro s hs
          rcases List.mem_append.mp hs with hs2 | hs2
          · exact (hOK (k2, g) (List.mem_cons_self _ _)).2 s hs2
          · rcases List.mem_singleton.mp hs2 with rfl
            exact ⟨hk.symm, hx⟩
        · exact hOK p (List.mem_cons_of_mem _ hp2)
      · rw [if_neg hk]
        intro p hp
        rcases List.mem_cons.mp hp with rfl | hp2
        · exact hOK (k2, g) (List.mem_cons_self _ _)
        · exact ih (fun q hq => hOK q (List.mem_cons_of_mem _ hq)) p hp2

theorem groupsOK_foldl (skips : List SkipLocation) :
    ∀ (l : List SkipLocation), (∀ x ∈ l, x ∈ skips) →
      ∀ acc, GroupsOK skips acc →
        GroupsOK skips
          (l.foldl (fun acc s => insertGrouped (truncateDay s.Date) s acc) acc) := by
  intro l
  induction l with
  | nil =>
    intro _ acc hOK
    exact hOK
  | cons x l ih =>
    intro hsub acc hOK
    rw [List.foldl_cons]
    exact ih (fun y hy => hsub y (List.mem_cons_of_mem _ hy))
      (insertGrouped (truncateDay x.Date) x acc)
      (groupsOK_insertGrouped skips x (hsub x (List.mem_cons_self _ _)) acc hOK)

theorem groupSkipsByDate_ok (skips : List SkipLocation) :
    GroupsOK skips (groupSkipsByDate skips) := by
  unfold groupSkipsByDate
  exact groupsOK_foldl skips skips (fun _ h => h) [] (by intro p hp; cases hp)

theorem mem_insertEventByDate (e a : CalendarEvent) :
    ∀ l, a ∈ insertEventByDate e l ↔ a = e ∨ a ∈ l := by
  intro l
  induction l with
  | nil => simp [insertEventByDate]
  | cons x xs ih =>
    simp only [insertEventByDate]
    by_cases h : e.Date < x.Date
    · rw [if_pos h]
      simp [List.mem_cons]
    · rw [if_neg h]
      rw [List.mem_cons, ih, List.mem_cons]
      tauto

theorem mem_sortEventsByDate (a : CalendarEvent) :
    ∀ l, a ∈ sortEventsByDate l ↔ a ∈ l := by
  intro l
  induction l with
  | nil => simp [sortEventsByDate]
  | cons x xs ih =>
    show a ∈ insertEventByDate x (sortEventsByDate xs) ↔ _
    rw [mem_insertEventByDate, ih, List.mem_cons]

/-- C2 counterexample: a personalized feed built from a single location
whose latitude and longitude are both zero (i.e. not geocoded; here the
user coordinate is also the origin, where the float haversine of
coincident points is exactly 0) still emits an event carrying a location
string — the claim that such a date's event carries no location string is
false for the code, which treats (0,0) as an ordinary coordinate. -/
theorem calendar_postcode_ungeocoded_cex :
    (buildPostcodeEvents (fun _ _ _ _ => 0) 0 0
        [⟨"Test Site", "SW11 1AA", 0, "Sat", 0, 0⟩]).map (fun e => e.Location) =
      ["Test Site, SW11 1AA, London, UK"] ∧
    (⟨"Test Site", "SW11 1AA", 0, "Sat", 0, 0⟩ : SkipLocation).Latitude = 0 ∧
    (⟨"Test Site", "SW11 1AA", 0, "Sat", 0, 0⟩ : SkipLocation).Longitude = 0 := by
  refine ⟨by decide, rfl, rfl⟩

/-- C2 (amended): in the personalized calendar feed every emitted event
carries a (non-empty) location string — `findNearestSkipForDate` treats
the zero coordinate (0,0) of an un-geocoded location as an ordinary value,
every date group is non-empty, and all haversine values are below
`math.MaxFloat64`, so a nearest candidate is always found even for a date
none of whose locations has been geocoded. -/
theorem calendar_postcode_location_always_set :
    ∀ (dist : ℚ → ℚ → ℚ → ℚ → ℚ) (uLat uLng : ℚ) (skips : List SkipLocation),
      (∀ s ∈ skips, dist uLat uLng s.Latitude s.Longitude < maxFloat64) →
      ∀ e ∈ buildPostcodeEvents dist uLat uLng skips, e.Location ≠ "" := by
  intro dist uLat uLng skips hb e he
  unfold buildPostcodeEvents at he
  rw [mem_sortEventsByDate] at he
  rcases List.mem_map.mp he with ⟨kg, hkg, rfl⟩
  obtain ⟨hne, hmem⟩ := groupSkipsByDate_ok skips kg hkg
  have hfind : findNearestSkipForDate dist kg.2 kg.1 uLat uLng ≠ none := by
    intro hnone
    obtain ⟨s0, hs0⟩ := List.exists_mem_of_ne_nil kg.2 hne
    have hsd := (hmem s0 hs0).1
    have hday : sameDay s0.Date kg.1 = true := by
      unfold sameDay
      rw [← hsd, truncateDay_idem]
      simp
    rw [findNearestSkipForDate, findNearestAux_none_iff] at hnone
    exact hnone.2 s0 hs0 ⟨hday, hb s0 (hmem s0 hs0).2⟩
  cases hres : findNearestSkipForDate dist kg.2 kg.1 uLat uLng with
  | none => exact absurd hres hfind
  | some nrst =>
    show (mkPostcodeEvent dist uLat uLng kg).Location ≠ ""
    unfold mkPostcodeEvent
    simp only [hres]
    intro habs
    have hlen := congrArg String.length habs
    rw [String.length_append, String.length_append] at hlen
    have h12 : (", London, UK" : String).length = 12 := rfl
    have h0 : ("" : String).length = 0 := rfl
    rw [h12, h0] at hlen
    omega

theorem calendar_postcode_location_always_set_witness :
    (∀ s ∈ [(⟨"Test Site", "SW11 1AA", 0, "Sat", 0, 0⟩ : SkipLocation)],
        (fun _ _ _ _ => (0 : ℚ)) 0 0 s.Latitude s.Longitude < maxFloat64) ∧
    ∀ e ∈ buildPostcodeEvents (fun _ _ _ _ => 0) 0 0
        [⟨"Test Site", "SW11 1AA", 0, "Sat", 0, 0⟩], e.Location ≠ "" :=
  ⟨by decide,
   calendar_postcode_location_always_set (fun _ _ _ _ => 0) 0 0
     [⟨"Test Site", "SW11 1AA", 0, "Sat", 0, 0⟩] (by decide)⟩

theorem mutex_update_notcrit {n : Nat} (pc : Fin n → ThreadPC) (i : Fin n) (X : ThreadPC)
    (hX : ¬ holdsWrite X)
    (M1 : ∀ a b, holdsWrite (pc a) → holdsWrite (pc b) → a = b) :
    ∀ a b, holdsWrite (Function.update pc i X a) →
      holdsWrite (Function.update pc i X b) → a = b := by
  intro a b ha hb
  rw [Function.update_apply] at ha hb
  by_cases hai : a = i
  · rw [if_pos hai] at ha
    exact absurd ha hX
  · rw [if_neg hai] at ha
    by_cases hbi : b = i
    · rw [if_pos hbi] at hb
      exact absurd hb hX
    · rw [if_neg hbi] at hb
      exact M1 a b ha hb

theorem mutex_update_entering {n : Nat} (pc : Fin n → ThreadPC) (i : Fin n) (X : ThreadPC)
    (hw : ∀ j, ¬ holdsWrite (pc j)) :
    ∀ a b, holdsWrite (Function.update pc i X a) →
      holdsWrite (Function.update pc i X b) → a = b := by
  intro a b ha hb
  rw [Function.update_apply] at ha hb
  by_cases hai : a = i
  · by_cases hbi : b = i
    · rw [hai, hbi]
    · rw [if_neg hbi] at hb
      exact absurd hb (hw b)
  · rw [if_neg hai] at ha
    exact absurd ha (hw a)

theorem mutex_update_stay {n : Nat} (pc : Fin n → ThreadPC) (i : Fin n) (X : ThreadPC)
    (hi : holdsWrite (pc i))
    (M1 : ∀ a b, holdsWrite (pc a) → holdsWrite (pc b) → a = b) :
    ∀ a b, holdsWrite (Function.update pc i X a) →
      holdsWrite (Function.update pc i X b) → a = b := by
  intro a b ha hb
  rw [Function.update_apply] at ha hb
  by_cases hai : a = i
  · by_cases hbi : b = i
    · rw [hai, hbi]
    · rw [if_neg hbi] at hb
      exact absurd (M1 b i hb hi) hbi
  · rw [if_neg hai] at ha
    by_cases hbi : b = i
    · exact absurd (M1 a i ha hi) hai
    · rw [if_neg hbi] at hb
      exact M1 a b ha hb

theorem m2_update_notcrit {n : Nat} (pc : Fin n → ThreadPC) (i : Fin n) (X : ThreadPC)
    (hX : ¬ holdsWrite X) (hXr : X ≠ .rlocked)
    (M2 : ∀ a b, pc a = .rlocked → ¬ holdsWrite (pc b)) :
    ∀ a b, Function.update pc i X a = .rlocked →
      ¬ holdsWrite (Function.update pc i X b) := by
  intro a b ha hb
  rw [Function.update_apply] at ha hb
  by_cases hai : a = i
  · rw [if_pos hai] at ha
    exact hXr ha
  · rw [if_neg hai] at ha
    by_cases hbi : b = i
    · rw [if_pos hbi] at hb
      exact hX hb
    · rw [if_neg hbi] at hb
      exact M2 a b ha hb

theorem m2_update_rlock {n : Nat} (pc : Fin n → ThreadPC) (i : Fin n)
    (hw : ∀ j, ¬ holdsWrite (pc j)) :
    ∀ a b, Function.update pc i .rlocked a = .rlocked →
      ¬ holdsWrite (Function.update pc i .rlocked b) := by
  intro a b _ hb
  rw [Function.update_apply] at hb
  by_cases hbi : b = i
  · rw [if_pos hbi] at hb
    exact absurd hb (by decide)
  · rw [if_neg hbi] at hb
    exact hw b hb

theorem m2_update_norlock {n : Nat} (pc : Fin n → ThreadPC) (i : Fin n) (X : ThreadPC)
    (hr : ∀ j, pc j ≠ .rlocked) (hXr : X ≠ .rlocked) :
    ∀ a b, Function.update pc i X a = .rlocked →
      ¬ holdsWrite (Function.update pc i X b) := by
  intro a b ha _
  rw [Function.update_apply] at ha
  by_cases hai : a = i
  · rw [if_pos hai] at ha
    exact absurd ha hXr
  · rw [if_neg hai] at ha
    exact absurd ha (hr a)

theorem missInv_step {n : Nat} (v : List SkipLocation) (s s' : SysState n)
    (hinv : MissInv v s) (hstep : SysStep v s s') : MissInv v s' := by
  obtain ⟨M1, M2, PH⟩ := hinv
  cases hstep with
  | rlock i hpc hw =>
    refine ⟨mutex_update_notcrit _ i _ (by decide) M1, m2_update_rlock _ i hw, ?_⟩
    rcases PH with ⟨h0, h1, h2, hset⟩ | ⟨h0, h1, k, hk, hothers⟩ | ⟨h0, h1, h2, hset⟩
    · left
      refine ⟨h0, h1, h2, ?_⟩
      intro j
      dsimp only
      rw [Function.update_apply]
      by_cases hji : j = i
      · rw [if_pos hji]
        right; left; rfl
      · rw [if_neg hji]
        exact hset j
    · exfalso
      rcases hk with ⟨hk1, -⟩ | ⟨hk1, -⟩
      · exact hw k (by rw [hk1]; right; left; rfl)
      · exact hw k (by rw [hk1]; right; right; rfl)
    · right; right
      refine ⟨h0, h1, h2, ?_⟩
      intro j
      dsimp only
      rw [Function.update_apply]
      by_cases hji : j = i
      · rw [if_pos hji]
        right; left; rfl
      · rw [if_neg hji]
        exact hset j
  | rhit i w hpc hd hf =>
    refine ⟨mutex_update_notcrit _ i _ (by rintro (h | h | h) <;> cases h) M1,
      m2_update_notcrit _ i _ (by rintro (h | h | h) <;> cases h) (by intro h; cases h) M2,
      ?_⟩
    rcases PH with ⟨h0, h1, h2, hset⟩ | ⟨h0, h1, k, hk, hothers⟩ | ⟨h0, h1, h2, hset⟩
    · exfalso
      rw [h2] at hd
      cases hd
    · exfalso
      rw [h1] at hf
      cases hf
    · rw [h2] at hd
      injection hd with hwv
      subst hwv
      right; right
      refine ⟨h0, h1, h2, ?_⟩
      intro j
      dsimp only
      rw [Function.update_apply]
      by_cases hji : j = i
      · rw [if_pos hji]
        right; right; right; right; rfl
      · rw [if_neg hji]
        exact hset j
  | rmiss i hpc hm =>
    refine ⟨mutex_update_notcrit _ i _ (by decide) M1,
      m2_update_notcrit _ i _ (by decide) (by decide) M2, ?_⟩
    rcases PH with ⟨h0, h1, h2, hset⟩ | ⟨h0, h1, k, hk, hothers⟩ | ⟨h0, h1, h2, hset⟩
    · left
      refine ⟨h0, h1, h2, ?_⟩
      intro j
      dsimp only
      rw [Function.update_apply]
      by_cases hji : j = i
      · rw [if_pos hji]
        right; right; left; rfl
      · rw [if_neg hji]
        exact hset j
    · exfalso
      by_cases hik : i = k
      · subst hik
        rcases hk with ⟨hk1, -⟩ | ⟨hk1, -⟩ <;> (rw [hpc] at hk1; cases hk1)
      · rcases hothers i hik with h | h <;> (rw [hpc] at h; cases h)
    · right; right
      refine ⟨h0, h1, h2, ?_⟩
      intro j
      dsimp only
      rw [Function.update_apply]
      by_cases hji : j = i
      · rw [if_pos hji]
        right; right; left; rfl
      · rw [if_neg hji]
        exact hset j
  | wlock i hpc hw hr =>
    refine ⟨mutex_update_entering _ i _ hw, m2_update_norlock _ i _ hr (by decide), ?_⟩
    rcases PH with ⟨h0, h1, h2, hset⟩ | ⟨h0, h1, k, hk, hothers⟩ | ⟨h0, h1, h2, hset⟩
    · left
      refine ⟨h0, h1, h2, ?_⟩
      intro j
      dsimp only
      rw [Function.update_apply]
      by_cases hji : j = i
      · rw [if_pos hji]
        right; right; right; rfl
      · rw [if_neg hji]
        exact hset j
    · exfalso
      rcases hk with ⟨hk1, -⟩ | ⟨hk1, -⟩
      · exact hw k (by rw [hk1]; right; left; rfl)
      · exact hw k (by rw [hk1]; right; right; rfl)
    · right; right
      refine ⟨h0, h1, h2, ?_⟩
      intro j
      dsimp only
      rw [Function.update_apply]
      by_cases hji : j = i
      · rw [if_pos hji]
        right; right; right; left; rfl
      · rw [if_neg hji]
        exact hset j
  | whit i w hpc hd hf =>
    refine ⟨mutex_update_notcrit _ i _ (by rintro (h | h | h) <;> cases h) M1,
      m2_update_notcrit _ i _ (by rintro (h | h | h) <;> cases h) (by intro h; cases h) M2,
      ?_⟩
    rcases PH with ⟨h0, h1, h2, hset⟩ | ⟨h0, h1, k, hk, hothers⟩ | ⟨h0, h1, h2, hset⟩
    · exfalso
      rw [h2] at hd
      cases hd
    · exfalso
      rw [h1] at hf
      cases hf
    · rw [h2] at hd
      injection hd with hwv
      subst hwv
      right; right
      refine ⟨h0, h1, h2, ?_⟩
      intro j
      dsimp only
      rw [Function.update_apply]
      by_cases hji : j = i
      · rw [if_pos hji]
        right; right; right; right; rfl
      · rw [if_neg hji]
        exact hset j
  | wmiss i hpc hm =>
    have hi : holdsWrite (s.pc i) := by rw [hpc]; left; rfl
    refine ⟨mutex_update_stay _ i _ hi M1,
      m2_update_norlock _ i _ (fun a ha => M2 a i ha hi) (by decide), ?_⟩
    rcases PH with ⟨h0, h1, h2, hset⟩ | ⟨h0, h1, k, hk, hothers⟩ | ⟨h0, h1, h2, hset⟩
    · right; left
      refine ⟨?_, h1, i, Or.inl ⟨?_, h2⟩, ?_⟩
      · dsimp only
        rw [h0]
      · dsimp only
        rw [Function.update_same]
      · intro j hji
        dsimp only
        rw [Function.update_noteq hji]
        rcases hset j with h | h | h | h
        · left; exact h
        · exact absurd hi (M2 j i h)
        · right; exact h
        · exact absurd (M1 j i (by rw [h]; left; rfl) hi) hji
    · exfalso
      by_cases hik : i = k
      · subst hik
        rcases hk with ⟨hk1, -⟩ | ⟨hk1, -⟩ <;> (rw [hpc] at hk1; cases hk1)
      · rcases hothers i hik with h | h <;> (rw [hpc] at h; cases h)
    · exfalso
      rcases hm with hm | hm
      · rw [h2] at hm
        cases hm
      · rw [h1] at hm
        cases hm
  | wdata i hpc =>
    have hi : holdsWrite (s.pc i) := by rw [hpc]; right; left; rfl
    refine ⟨mutex_update_stay _ i _ hi M1,
      m2_update_norlock _ i _ (fun a ha => M2 a i ha hi) (by decide), ?_⟩
    rcases PH with ⟨h0, h1, h2, hset⟩ | ⟨h0, h1, k, hk, hothers⟩ | ⟨h0, h1, h2, hset⟩
    · exfalso
      rcases hset i with h | h | h | h <;> (rw [hpc] at h; cases h)
    · by_cases hik : i = k
      · subst hik
        rcases hk with ⟨-, hkd⟩ | ⟨hk1, -⟩
        · right; left
          refine ⟨h0, h1, i, Or.inr ⟨?_, rfl⟩, ?_⟩
          · dsimp only
            rw [Function.update_same]
          · intro j hji
            dsimp only
            rw [Function.update_noteq hji]
            exact hothers j hji
        · exfalso
          rw [hpc] at hk1
          cases hk1
      · exfalso
        rcases hothers i hik with h | h <;> (rw [hpc] at h; cases h)
    · exfalso
      rcases hset i with h | h | h | h | h <;> (rw [hpc] at h; cases h)
  | wts i hpc =>
    have hi : holdsWrite (s.pc i) := by rw [hpc]; right; right; rfl
    refine ⟨mutex_update_notcrit _ i _ (by rintro (h | h | h) <;> cases h) M1,
      m2_update_norlock _ i _ (fun a ha => M2 a i ha hi) (by intro h; cases h),
      ?_⟩
    rcases PH with ⟨h0, h1, h2, hset⟩ | ⟨h0, h1, k, hk, hothers⟩ | ⟨h0, h1, h2, hset⟩
    · exfalso
      rcases hset i with h | h | h | h <;> (rw [hpc] at h; cases h)
    · by_cases hik : i = k
      · subst hik
        rcases hk with ⟨hk1, -⟩ | ⟨-, hkd⟩
        · exfalso
          rw [hpc] at hk1
          cases hk1
        · right; right
          refine ⟨h0, rfl, hkd, ?_⟩
          intro j
          dsimp only
          rw [Function.update_apply]
          by_cases hji : j = i
          · rw [if_pos hji]
            right; right; right; right; rfl
          · rw [if_neg hji]
            rcases hothers j hji with h | h
            · left; exact h
            · right; right; left; exact h
      · exfalso
        rcases hothers i hik with h | h <;> (rw [hpc] at h; cases h)
    · exfalso
      rcases hset i with h | h | h | h | h <;> (rw [hpc] at h; cases h)

theorem freshInv_step {n : Nat} (w v : List SkipLocation) (s s' : SysState n)
    (hinv : FreshInv w s) (hstep : SysStep v s s') : FreshInv w s' := by
  obtain ⟨h0, h1, h2, hset⟩ := hinv
  cases hstep with
  | rlock i hpc hw =>
    refine ⟨h0, h1, h2, ?_⟩
    intro j
    dsimp only
    rw [Function.update_apply]
    by_cases hji : j = i
    · rw [if_pos hji]
      right; left; rfl
    · rw [if_neg hji]
      exact hset j
  | rhit i w2 hpc hd hf =>
    rw [h1] at hd
    injection hd with hw2
    subst hw2
    refine ⟨h0, h1, h2, ?_⟩
    intro j
    dsimp only
    rw [Function.update_apply]
    by_cases hji : j = i
    · rw [if_pos hji]
      right; right; right; right; rfl
    · rw [if_neg hji]
      exact hset j
  | rmiss i hpc hm =>
    exfalso
    rcases hm with hm | hm
    · rw [h1] at hm
      cases hm
    · rw [h2] at hm
      cases hm
  | wlock i hpc hw hr =>
    refine ⟨h0, h1, h2, ?_⟩
    intro j
    dsimp only
    rw [Function.update_apply]
    by_cases hji : j = i
    · rw [if_pos hji]
      right; right; right; left; rfl
    · rw [if_neg hji]
      exact hset j
  | whit i w2 hpc hd hf =>
    rw [h1] at hd
    injection hd with hw2
    subst hw2
    refine ⟨h0, h1, h2, ?_⟩
    intro j
    dsimp only
    rw [Function.update_apply]
    by_cases hji : j = i
    · rw [if_pos hji]
      right; right; right; right; rfl
    · rw [if_neg hji]
      exact hset j
  | wmiss i hpc hm =>
    exfalso
    rcases hm with hm | hm
    · rw [h1] at hm
      cases hm
    · rw [h2] at hm
      cases hm
  | wdata i hpc =>
    exfalso
    rcases hset i with h | h | h | h | h <;> (rw [hpc] at h; cases h)
  | wts i hpc =>
    exfalso
    rcases hset i with h | h | h | h | h <;> (rw [hpc] at h; cases h)

theorem missInv_init {n : Nat} (v : List SkipLocation) : MissInv v (initMiss n) := by
  refine ⟨?_, ?_, Or.inl ⟨rfl, rfl, rfl, fun _ => Or.inl rfl⟩⟩
  · intro a b ha _
    rw [show (initMiss n).pc a = ThreadPC.start from rfl] at ha
    rcases ha with h | h | h <;> cases h
  · intro a b ha
    rw [show (initMiss n).pc a = ThreadPC.start from rfl] at ha
    cases ha

theorem freshInv_init {n : Nat} (w : List SkipLocation) : FreshInv w (initFresh n w) :=
  ⟨rfl, rfl, rfl, fun _ => Or.inl rfl⟩

theorem missInv_reach {n : Nat} (v : List SkipLocation) (s : SysState n)
    (h : Reaches v (initMiss n) s) : MissInv v s := by
  induction h with
  | refl => exact missInv_init v
  | tail _ hbc ih => exact missInv_step v _ _ ih hbc

theorem freshInv_reach {n : Nat} (w v : List SkipLocation) (s : SysState n)
    (h : Reaches v (initFresh n w) s) : FreshInv w s := by
  induction h with
  | refl => exact freshInv_init w
  | tail _ hbc ih => exact freshInv_step w v _ _ ih hbc

/-- C3: under the interleaving semantics of `getSkipLocations` with Go
`RWMutex` semantics, in every state reachable by any number of concurrent
calls from a cache miss (with the scrape succeeding with `v` and the TTL
not lapsing mid-run): at most one scrape has been started, at most one
thread is inside the exclusive refresh section, every finished caller
observed exactly the freshly written value `v` (never a partial write),
and once all callers have finished, exactly one scrape was performed; from
a warm cache holding `w`, no scrape is ever started and every finished
caller observed the pre-refresh cached value `w`. -/
theorem getSkipLocations_single_flight :
    (∀ (n : Nat) (v : List SkipLocation) (s : SysState n),
      Reaches v (initMiss n) s →
        s.scrapes ≤ 1 ∧
        (∀ i j, holdsWrite (s.pc i) → holdsWrite (s.pc j) → i = j) ∧
        (∀ i r, s.pc i = .finished r → r = v) ∧
        (0 < n → (∀ i, ∃ r, s.pc i = .finished r) → s.scrapes = 1)) ∧
    (∀ (n : Nat) (w v : List SkipLocation) (s : SysState n),
      Reaches v (initFresh n w) s →
        s.scrapes = 0 ∧ ∀ i r, s.pc i = .finished r → r = w) := by
  constructor
  · intro n v s hreach
    obtain ⟨M1, M2, PH⟩ := missInv_reach v s hreach
    refine ⟨?_, M1, ?_, ?_⟩
    · rcases PH with ⟨h0, -⟩ | ⟨h0, -⟩ | ⟨h0, -⟩ <;> omega
    · intro i r hfin
      rcases PH with ⟨-, -, -, hset⟩ | ⟨-, -, k, hk, hothers⟩ | ⟨-, -, -, hset⟩
      · exfalso
        rcases hset i with h | h | h | h <;> (rw [hfin] at h; cases h)
      · exfalso
        by_cases hik : i = k
        · subst hik
          rcases hk with ⟨hk1, -⟩ | ⟨hk1, -⟩ <;> (rw [hfin] at hk1; cases hk1)
        · rcases hothers i hik with h | h <;> (rw [hfin] at h; cases h)
      · rcases hset i with h | h | h | h | h
        · rw [hfin] at h; cases h
        · rw [hfin] at h; cases h
        · rw [hfin] at h; cases h
        · rw [hfin] at h; cases h
        · rw [hfin] at h
          injection h
    · intro hn hall
      obtain ⟨r, hi0⟩ := hall ⟨0, hn⟩
      rcases PH with ⟨-, -, -, hset⟩ | ⟨-, -, k, hk, hothers⟩ | ⟨h0, -⟩
      · exfalso
        rcases hset ⟨0, hn⟩ with h | h | h | h <;> (rw [hi0] at h; cases h)
      · exfalso
        by_cases hik : (⟨0, hn⟩ : Fin n) = k
        · subst hik
          rcases hk with ⟨hk1, -⟩ | ⟨hk1, -⟩ <;> (rw [hi0] at hk1; cases hk1)
        · rcases hothers ⟨0, hn⟩ hik with h | h <;> (rw [hi0] at h; cases h)
      · exact h0
  · intro n w v s hreach
    obtain ⟨h0, h1, h2, hset⟩ := freshInv_reach w v s hreach
    refine ⟨h0, ?_⟩
    intro i r hfin
    rcases hset i with h | h | h | h | h
    · rw [hfin] at h; cases h
    · rw [hfin] at h; cases h
    · rw [hfin] at h; cases h
    · rw [hfin] at h; cases h
    · rw [hfin] at h
      injection h

theorem getSkipLocations_single_flight_witness :
    (initMiss 1).scrapes ≤ 1 ∧
    (∀ i r, (initMiss 1).pc i = .finished r → r = ([] : List SkipLocation)) := by
  have h := getSkipLocations_single_flight.1 1 [] (initMiss 1) Relation.ReflTransGen.refl
  exact ⟨h.1, h.2.2.1⟩

theorem memGet_hit_iff_witness :
    (memGet [("skips", ⟨[], 50⟩)] 40 "skips").1 = some [] ∧
    ∃ e, mapLookup "skips" [("skips", ⟨[], 50⟩)] = some e ∧
      (40 : Int) ≤ e.expiresAt ∧ ([] : List SkipLocation) = e.locations :=
  ⟨rfl, (memGet_hit_iff [("skips", ⟨[], 50⟩)] 40 "skips").2.1 [] rfl⟩
